import Mathlib

/-! # lab4_by_Tkalia: a shallow embedding of the two benchmark programs

Two C++ programs are embedded, each in its own namespace:

* `Github`    -- `lab4_by_Tkalia_github.cpp` (three field mutexes and one string mutex);
* `Variant12` -- `Lab4_by_Tkalia_12_variant.cpp` (one shared mutex).

Conventions of the embedding.

* `std::string` is a `List Char` (all text handled by the programs is ASCII).
* `int` values are `Int`; the only place where the width of `int` matters is the
  stream extraction `iss >> i`, which clamps to `[INT_MIN, INT_MAX]`.
* `uint64_t` counters are `Nat` reduced modulo `2 ^ 64`, the `long long` accumulator is an
  `Int` wrapped into `[-2 ^ 63, 2 ^ 63)`.
* A thrown exception is an `Option String` next to the state the call leaves behind.
* Behaviour the C++ standard leaves undefined (an out-of-bounds subscript) is `none`.
-/

/-! ## Text helpers shared by both programs -/

/-- The `std::string` of the embedding. -/
abbrev Str := List Char

/-- The predicate `isspace` of the "C" locale: blank, and the controls 9 to 13. -/
def isspace (c : Char) : Bool := c.toNat == 32 || (9 ≤ c.toNat && c.toNat ≤ 13)

/-- The predicate `isdigit`. -/
def isdigit (c : Char) : Bool := 48 ≤ c.toNat && c.toNat ≤ 57

/-- The character of a decimal digit `d < 10`. -/
def digitChar (d : Nat) : Char := Char.ofNat (48 + d)

/-- Decimal digits of `n`, most significant first; `fuel` bounds the number of digits. -/
def natDigits : Nat → Nat → Str
  | 0, _ => []
  | fuel + 1, n => if n < 10 then [digitChar n] else natDigits fuel (n / 10) ++ [digitChar (n % 10)]

/-- Decimal text of a natural number, as `operator<<` and `std::to_string` print it. -/
def natToStr (n : Nat) : Str := natDigits (n + 1) n

/-- Decimal text of an `int`, as `operator<<` and `std::to_string` print it. -/
def intToStr (v : Int) : Str :=
  if v < 0 then '-' :: natToStr v.natAbs else natToStr v.natAbs

/-- Value of a run of decimal digits, most significant first. -/
def digitsVal (ds : Str) : Nat := ds.foldl (fun a c => a * 10 + (c.toNat - 48)) 0

namespace Github

/-! ## Machine integers -/

/-- Largest value of the 32-bit `int`. -/
def INT_MAX : Int := 2147483647

/-- Smallest value of the 32-bit `int`. -/
def INT_MIN : Int := -2147483648

/-- Largest value of `long long`. -/
def LLONG_MAX : Int := 2 ^ 63 - 1

/-- Smallest value of `long long`. -/
def LLONG_MIN : Int := -(2 ^ 63)

/-- Arithmetic of `uint64_t`: reduction modulo `2 ^ 64`. -/
def wrapU64 (n : Nat) : Nat := n % 2 ^ 64

/-- Arithmetic of `long long`: wrap into `[-2 ^ 63, 2 ^ 63)`. -/
def wrapLL (x : Int) : Int := (x + 2 ^ 63) % 2 ^ 64 - 2 ^ 63

/-- The conversion `(size_t)c.idx` of an `int` to the 64-bit `size_t`. -/
def toSizeT (i : Int) : Nat := (i % 2 ^ 64).toNat

/-! ## `std::istringstream` -/

/-- An input string stream: the characters not yet read and the `failbit`.
(`eofbit` is set exactly when reading has hit the end of `buf`; an extraction started with
`eofbit` set fails just as one that finds only white space, so it needs no field.) -/
structure IStream where
  /-- Characters not yet consumed. -/
  buf : Str
  /-- The `failbit`. -/
  fail : Bool
deriving DecidableEq

/-- Extraction `iss >> t` of a `std::string`: with `failbit` set, or when only white space is
left, `t` keeps its old value and `failbit` is set; otherwise `t` is the next maximal run of
non-space characters. -/
def extractString (st : IStream) (t : Str) : Str × IStream :=
  if st.fail then (t, st)
  else
    let s := st.buf.dropWhile isspace
    if s = [] then (t, ⟨[], true⟩)
    else (s.takeWhile (fun c => !isspace c), ⟨s.dropWhile (fun c => !isspace c), false⟩)

/-- Splits an optional sign off the front of a numeric field: `(negative, rest)`. -/
def splitSign : Str → Bool × Str
  | '-' :: r => (true, r)
  | '+' :: r => (false, r)
  | s => (false, s)

/-- Extraction `iss >> i` of an `int` (decimal base). With `failbit` set, or when only white
space is left, `i` keeps its old value `cur` (and `failbit` is set). Otherwise an optional
sign and the maximal run of digits are consumed: no digit stores 0 and sets `failbit`, a value
outside `int` stores the nearest bound and sets `failbit`. -/
def extractInt (st : IStream) (cur : Int) : Int × IStream :=
  if st.fail then (cur, st)
  else
    let s := st.buf.dropWhile isspace
    if s = [] then (cur, ⟨[], true⟩)
    else
      let sg := splitSign s
      let ds := sg.2.takeWhile isdigit
      let rest := sg.2.dropWhile isdigit
      if ds = [] then (0, ⟨rest, true⟩)
      else
        let n : Int := digitsVal ds
        let v : Int := if sg.1 then -n else n
        if INT_MAX < v then (INT_MAX, ⟨rest, true⟩)
        else if v < INT_MIN then (INT_MIN, ⟨rest, true⟩)
        else (v, ⟨rest, false⟩)

/-! ## `struct DataStructure` -/

/-- The record: `array<int, 3> fields` (the mutexes carry no data). -/
structure DataStructure where
  /-- The three fields. -/
  fields : Fin 3 → Int

/-- The constructor `DataStructure()`: `fields.fill(0)`. -/
def DataStructure.new : DataStructure := ⟨fun _ => 0⟩

/-- `DataStructure::get`: throws `out_of_range("get idx")` when `i >= fields.size()`. -/
def DataStructure.get (ds : DataStructure) (i : Nat) : Except String Int :=
  if h : i < 3 then .ok (ds.fields ⟨i, h⟩) else .error "get idx"

/-- `DataStructure::set`: throws `out_of_range("set idx")` when `i >= fields.size()`,
otherwise stores `v` in field `i`. The result is the exception, if any, and the record
as the call leaves it. -/
def DataStructure.set (ds : DataStructure) (i : Nat) (v : Int) : Option String × DataStructure :=
  if h : i < 3 then (none, ⟨Function.update ds.fields ⟨i, h⟩ v⟩) else (some "set idx", ds)

/-- `DataStructure::operator std::string`: the text written to the `ostringstream`. -/
def DataStructure.toStdString (ds : DataStructure) : Str :=
  "DataStructure\x7b".toList
    ++ "0:".toList ++ intToStr (ds.fields 0) ++ ", ".toList
    ++ "1:".toList ++ intToStr (ds.fields 1) ++ ", ".toList
    ++ "2:".toList ++ intToStr (ds.fields 2)
    ++ "\x7d".toList

/-- `DataStructure::to_string_locked`. -/
def DataStructure.to_string_locked (ds : DataStructure) : Str := ds.toStdString

/-! ## `struct Command` -/

/-- The enumeration `Command::Type`. -/
inductive CommandType where
  | READ
  | WRITE
  | STRING
deriving DecidableEq

/-- A parsed command. -/
structure Command where
  /-- The member `type`. -/
  type : CommandType
  /-- The member `idx`. -/
  idx : Int
  /-- The member `val`. -/
  val : Int
deriving DecidableEq

/-- The indeterminate values of the uninitialised locals `int i, v;` of `Command::parse`:
an extraction that fails before reading a character leaves its target untouched. -/
structure Junk where
  /-- What `i` holds before `iss >> i`. -/
  i : Int
  /-- What `v` holds before `iss >> v`. -/
  v : Int
deriving DecidableEq

/-- `Command::parse`. -/
def Command.parse (junk : Junk) (line : Str) : Command :=
  let r := extractString ⟨line, false⟩ []
  if r.1 = "write".toList then
    let ri := extractInt r.2 junk.i
    let rv := extractInt ri.2 junk.v
    ⟨.WRITE, ri.1, rv.1⟩
  else if r.1 = "read".toList then
    let ri := extractInt r.2 junk.i
    ⟨.READ, ri.1, 0⟩
  else ⟨.STRING, -1, 0⟩

/-! ## `struct ExecResult` and `execute_commands_on_ds` -/

/-- The counters of one worker. -/
structure ExecResult where
  /-- Number of reads (`uint64_t`). -/
  reads : Nat
  /-- Number of writes (`uint64_t`). -/
  writes : Nat
  /-- Number of string conversions (`uint64_t`). -/
  strings : Nat
  /-- The accumulator (`long long`). -/
  acc : Int
deriving DecidableEq

/-- The default member initialisers of `ExecResult`. -/
def ExecResult.new : ExecResult := ⟨0, 0, 0, 0⟩

/-- What a call that may throw leaves behind. -/
structure Outcome where
  /-- The exception that left the call, if any. -/
  error : Option String
  /-- The record after the call. -/
  ds : DataStructure
  /-- The counters after the call. -/
  res : ExecResult

/-- One iteration of the second loop of `execute_commands_on_ds`: the `switch (c.type)`. -/
def execCommand (c : Command) (ds : DataStructure) (res : ExecResult) : Outcome :=
  match c.type with
  | .READ =>
    match ds.get (toSizeT c.idx) with
    | .error e => ⟨some e, ds, res⟩
    | .ok v => ⟨none, ds, { res with reads := wrapU64 (res.reads + 1), acc := wrapLL (res.acc + v) }⟩
  | .WRITE =>
    match ds.set (toSizeT c.idx) c.val with
    | (some e, ds1) => ⟨some e, ds1, res⟩
    | (none, ds1) => ⟨none, ds1, { res with writes := wrapU64 (res.writes + 1) }⟩
  | .STRING =>
    let s := ds.to_string_locked
    ⟨none, ds, { res with strings := wrapU64 (res.strings + 1), acc := wrapLL (res.acc + s.length) }⟩

/-- The second loop of `execute_commands_on_ds`: `for (auto& c : cmds)`; an exception leaves
the loop at once. -/
def execCommands : List Command → DataStructure → ExecResult → Outcome
  | [], ds, res => ⟨none, ds, res⟩
  | c :: cs, ds, res =>
    let o := execCommand c ds res
    match o.error with
    | some e => ⟨some e, o.ds, o.res⟩
    | none => execCommands cs o.ds o.res

/-- `execute_commands_on_ds`: every line is parsed first, then the commands are run. -/
def execute_commands_on_ds (junk : Junk) (ds : DataStructure) (lines : List Str)
    (res : ExecResult) : Outcome :=
  execCommands (lines.map (Command.parse junk)) ds res

/-! ## `generate_sequence` -/

/-- The enumeration `Variant`. -/
inductive Variant where
  | VAR_A
  | VAR_B
  | VAR_C
deriving DecidableEq

/-- The table `choices` that `generate_sequence` builds for a variant. -/
def choices : Variant → List (Str × Int)
  | .VAR_A =>
    [("read 0".toList, 10), ("write 0 1".toList, 10), ("read 1".toList, 10),
     ("write 1 1".toList, 10), ("read 2".toList, 40), ("write 2 1".toList, 5),
     ("string".toList, 15)]
  | .VAR_B =>
    [("read 0".toList, 1), ("write 0 1".toList, 1), ("read 1".toList, 1),
     ("write 1 1".toList, 1), ("read 2".toList, 1), ("write 2 1".toList, 1),
     ("string".toList, 1)]
  | .VAR_C =>
    [("read 0".toList, 60), ("write 0 1".toList, 5), ("read 1".toList, 5),
     ("write 1 1".toList, 5), ("read 2".toList, 5), ("write 2 1".toList, 5),
     ("string".toList, 15)]

/-- The sampling loop of `generate_sequence`. `dist weights rng` stands for one call
`dist(rng)` of the `discrete_distribution<int>` built from `weights`: the index drawn and the
next state of the generator. The subscript `cmds[choice]` outside the vector is undefined
behaviour, `none`. -/
def sampleLoop {ρ : Type} (dist : List Int → ρ → Nat × ρ) (weights : List Int) (cmds : List Str) :
    Nat → ρ → Option (List Str)
  | 0, _ => some []
  | n + 1, rng =>
    let d := dist weights rng
    match cmds[d.1]? with
    | none => none
    | some c => (sampleLoop dist weights cmds n d.2).map (fun out => c :: out)

/-- `generate_sequence`. -/
def generate_sequence {ρ : Type} (dist : List Int → ρ → Nat × ρ) (var : Variant)
    (ops_count : Nat) (rng : ρ) : Option (List Str) :=
  let cmds := (choices var).map (fun p => p.1)
  let weights := (choices var).map (fun p => p.2)
  sampleLoop dist weights cmds ops_count rng

/-! ## `run_test_variant_threads` -/

/-- One worker thread inside `execute_commands_on_ds`: the commands it still has to run and
its entry of `thread_results`. -/
structure Worker where
  /-- Commands not yet executed. -/
  cmds : List Command
  /-- The worker's `ExecResult`. -/
  res : ExecResult

/-- The shared record and the workers running against it. -/
structure Shared where
  /-- The one `DataStructure` all workers use. -/
  ds : DataStructure
  /-- The workers, by thread number. -/
  workers : List Worker

/-- Worker `t` runs its next command on the shared record (each of `get`, `set` and the string
conversion runs under its mutexes, so commands of different workers take effect one after the
other). A worker that is finished, or a number that names no worker, changes nothing. An
exception leaving a thread ends the program (`std::terminate`): `none`. -/
def stepWorker (s : Shared) (t : Nat) : Option Shared :=
  match s.workers[t]? with
  | none => some s
  | some w =>
    match w.cmds with
    | [] => some s
    | c :: rest =>
      let o := execCommand c s.ds w.res
      match o.error with
      | some _ => none
      | none => some ⟨o.ds, s.workers.set t ⟨rest, o.res⟩⟩

/-- Runs the workers in the order the schedule gives. -/
def runSchedule : List Nat → Shared → Option Shared
  | [], s => some s
  | t :: ts, s =>
    match stepWorker s t with
    | none => none
    | some s1 => runSchedule ts s1

/-- The totals printed by `run_test_variant_threads`. -/
structure Totals where
  /-- The local `total_reads`. -/
  total_reads : Nat
  /-- The local `total_writes`. -/
  total_writes : Nat
  /-- The local `total_strings`. -/
  total_strings : Nat
  /-- The local `acc`. -/
  acc : Int
deriving DecidableEq

/-- The loop `for (auto& r : thread_results)` of `run_test_variant_threads`. -/
def sumResults (rs : List ExecResult) : Totals :=
  rs.foldl
    (fun tot r =>
      ⟨wrapU64 (tot.total_reads + r.reads), wrapU64 (tot.total_writes + r.writes),
       wrapU64 (tot.total_strings + r.strings), wrapLL (tot.acc + r.acc)⟩)
    ⟨0, 0, 0, 0⟩

/-- `run_test_variant_threads` under one interleaving of the workers: one worker per entry of
`per_thread_lines`, each with a fresh `ExecResult`; after the joins the results are summed.
`none` when a worker threw, or when the schedule ends before every worker has finished (such a
schedule is only the beginning of a run). The measured duration is not modelled. -/
def run_test_variant_threads (junk : Junk) (ds : DataStructure)
    (per_thread_lines : List (List Str)) (sched : List Nat) : Option (DataStructure × Totals) :=
  let start : Shared :=
    ⟨ds, per_thread_lines.map (fun ls => ⟨ls.map (Command.parse junk), ExecResult.new⟩)⟩
  match runSchedule sched start with
  | none => none
  | some s =>
    if s.workers.all (fun w => w.cmds.isEmpty) then
      some (s.ds, sumResults (s.workers.map (fun w => w.res)))
    else none

/-! ## Notions used to state the properties -/

/-- A command whose index, when it has one, names a field. -/
def fieldOk (c : Command) : Prop := c.type = .STRING ∨ toSizeT c.idx < 3

/-- How many commands of a list have the given type. -/
def countType (k : CommandType) (cs : List Command) : Nat := cs.countP (fun c => c.type = k)

/-- The counters stay below `2 ^ 64`. -/
def ExecResult.inRange (r : ExecResult) : Prop :=
  r.reads < 2 ^ 64 ∧ r.writes < 2 ^ 64 ∧ r.strings < 2 ^ 64

/-- Every command the worker still has to run has its index in range. -/
def Worker.ok (w : Worker) : Prop := ∀ c ∈ w.cmds, fieldOk c

/-- Where the three counters of a worker will stand (modulo `2 ^ 64`) once it has run the
commands it still has. -/
def Worker.final (w : Worker) : Nat × Nat × Nat :=
  ((w.res.reads + countType .READ w.cmds) % 2 ^ 64,
   (w.res.writes + countType .WRITE w.cmds) % 2 ^ 64,
   (w.res.strings + countType .STRING w.cmds) % 2 ^ 64)

/-- The first white-space delimited token of a line. -/
def firstToken (line : Str) : Str := (line.dropWhile isspace).takeWhile (fun c => !isspace c)

end Github

namespace Variant12

/-! ## `class DataStructure` of the shared-mutex program -/

/-- The record: `int fields[3]`. -/
structure DataStructure where
  /-- The three fields. -/
  fields : Fin 3 → Int

/-- The constructor: all fields 0. -/
def DataStructure.new : DataStructure := ⟨fun _ => 0⟩

/-- `readField`: `fields[i]`, undefined outside the array. -/
def DataStructure.readField (ds : DataStructure) (i : Int) : Option Int :=
  if h : 0 ≤ i ∧ i < 3 then some (ds.fields ⟨i.toNat, by omega⟩) else none

/-- `writeField`: `fields[i] = value`, undefined outside the array. -/
def DataStructure.writeField (ds : DataStructure) (i : Int) (value : Int) :
    Option DataStructure :=
  if h : 0 ≤ i ∧ i < 3 then some ⟨Function.update ds.fields ⟨i.toNat, by omega⟩ value⟩ else none

/-- `toString`. -/
def DataStructure.toString (ds : DataStructure) : Str :=
  "[".toList ++ intToStr (ds.fields 0) ++ ", ".toList ++ intToStr (ds.fields 1)
    ++ ", ".toList ++ intToStr (ds.fields 2) ++ "]".toList

/-! ## `generateFile` -/

/-- The subscript `cmd[k]` of a `std::string`: the terminating null at `k = size()`,
undefined beyond. -/
def charAt (cmd : Str) (k : Nat) : Option Char :=
  if k < cmd.length then cmd[k]? else if k = cmd.length then some (Char.ofNat 0) else none

/-- One iteration of the loop of `executeFile` (values read and texts built are dropped). -/
def execOp (cmd : Str) (ds : DataStructure) : Option DataStructure :=
  if cmd.take 4 = "read".toList then
    match charAt cmd 5 with
    | none => none
    | some c => (ds.readField ((c.toNat : Int) - 48)).map (fun _ => ds)
  else if cmd.take 5 = "write".toList then
    match charAt cmd 6 with
    | none => none
    | some c => ds.writeField ((c.toNat : Int) - 48) 1
  else if cmd.take 6 = "string".toList then some ds
  else some ds

/-- The loop `for (const string& cmd : ops)` of `executeFile`, on the lines of the file. -/
def executeFile : List Str → DataStructure → Option DataStructure
  | [], ds => some ds
  | cmd :: ops, ds =>
    match execOp cmd ds with
    | none => none
    | some ds1 => executeFile ops ds1

end Variant12

/-! ## Descriptor lines -/

/-- The line `read i`. -/
def readLine (i : Nat) : Str := "read ".toList ++ natToStr i

/-- The line `write i v`. -/
def writeLine (i : Nat) (v : Nat) : Str := "write ".toList ++ natToStr i ++ ' ' :: natToStr v

/-- The line `string`. -/
def stringLine : Str := "string".toList

/-- A well-formed operation descriptor: `read i`, `write i v` or `string`, `i` a field index. -/
inductive Descriptor where
  | read (i : Fin 3)
  | write (i : Fin 3) (v : Nat)
  | string
deriving DecidableEq

/-- The text of a descriptor. -/
def Descriptor.line : Descriptor → Str
  | .read i => readLine i.val
  | .write i v => writeLine i.val v
  | .string => stringLine

/-- Whether the descriptor is a read. -/
def Descriptor.isRead : Descriptor → Bool
  | .read _ => true
  | _ => false

/-- Whether the descriptor is a write. -/
def Descriptor.isWrite : Descriptor → Bool
  | .write _ _ => true
  | _ => false

/-- Whether the descriptor is a serialization. -/
def Descriptor.isString : Descriptor → Bool
  | .string => true
  | _ => false

/-- The seven lines the generators emit. -/
def generatorLines : List Str :=
  ["read 0".toList, "write 0 1".toList, "read 1".toList, "write 1 1".toList,
   "read 2".toList, "write 2 1".toList, "string".toList]

/-- The command a descriptor line parses to. -/
def Descriptor.cmd : Descriptor → Github.Command
  | .read i => ⟨.READ, i.val, 0⟩
  | .write i v => ⟨.WRITE, i.val, if Github.INT_MAX < (v : Int) then Github.INT_MAX else v⟩
  | .string => ⟨.STRING, -1, 0⟩

/-! # Properties -/

/-! ## Decimal text: printing a number and reading it back -/

theorem digitChar_toNat {d : Nat} (h : d < 10) : (digitChar d).toNat = 48 + d := by
  interval_cases d <;> rfl

theorem isdigit_digitChar {d : Nat} (h : d < 10) : isdigit (digitChar d) = true := by
  simp [isdigit, digitChar_toNat h]; omega

theorem isspace_of_isdigit {c : Char} (h : isdigit c = true) : isspace c = false := by
  simp [isdigit, isspace] at *; omega

theorem digitsVal_snoc (xs : Str) (c : Char) :
    digitsVal (xs ++ [c]) = digitsVal xs * 10 + (c.toNat - 48) := by
  simp [digitsVal, List.foldl_append]

/-- With enough fuel the digits of `n` are a non-empty run of digit characters of value `n`. -/
theorem natDigits_spec : ∀ (fuel n : Nat), n < fuel →
    natDigits fuel n ≠ [] ∧ (∀ c ∈ natDigits fuel n, isdigit c = true) ∧
      digitsVal (natDigits fuel n) = n := by
  intro fuel
  induction fuel with
  | zero => intro n h; omega
  | succ fuel ih =>
    intro n h
    unfold natDigits
    by_cases h10 : n < 10
    · simp only [h10, if_true]
      refine ⟨by simp, ?_, ?_⟩
      · intro c hc
        simp only [List.mem_singleton] at hc
        subst hc
        exact isdigit_digitChar h10
      · simp [digitsVal, digitChar_toNat h10]
    · simp only [h10, if_false]
      obtain ⟨_, hd, hv⟩ := ih (n / 10) (by omega)
      refine ⟨by simp, ?_, ?_⟩
      · intro c hc
        rcases List.mem_append.mp hc with hc | hc
        · exact hd c hc
        · simp only [List.mem_singleton] at hc
          subst hc
          exact isdigit_digitChar (Nat.mod_lt _ (by omega))
      · rw [digitsVal_snoc, hv, digitChar_toNat (Nat.mod_lt _ (by omega))]
        omega

theorem natToStr_ne_nil (n : Nat) : natToStr n ≠ [] := (natDigits_spec (n + 1) n (by omega)).1

theorem natToStr_isdigit (n : Nat) : ∀ c ∈ natToStr n, isdigit c = true :=
  (natDigits_spec (n + 1) n (by omega)).2.1

/-- Reading back the printed number gives the number. -/
theorem digitsVal_natToStr (n : Nat) : digitsVal (natToStr n) = n :=
  (natDigits_spec (n + 1) n (by omega)).2.2

theorem takeWhile_isdigit_natToStr (n : Nat) : (natToStr n).takeWhile isdigit = natToStr n :=
  List.takeWhile_eq_self_iff.mpr (natToStr_isdigit n)

theorem natToStr_head (n : Nat) : ∃ c cs, natToStr n = c :: cs ∧ isdigit c = true := by
  have h := natToStr_ne_nil n
  have hd := natToStr_isdigit n
  cases hs : natToStr n with
  | nil => exact absurd hs h
  | cons c cs => exact ⟨c, cs, rfl, hd c (by simp [hs])⟩

namespace Github

/-! ## `Command::parse` on the descriptor lines -/

theorem splitSign_of_isdigit {c : Char} (cs : Str) (h : isdigit c = true) :
    splitSign (c :: cs) = (false, c :: cs) := by
  unfold splitSign
  split
  · rename_i heq
    simp only [List.cons.injEq] at heq
    rw [heq.1] at h
    exact absurd h (by decide)
  · rename_i heq
    simp only [List.cons.injEq] at heq
    rw [heq.1] at h
    exact absurd h (by decide)
  · rfl

/-- Reading the last number of a line: one blank, then the digits of `v`. -/
theorem extractInt_blank_natToStr (v : Nat) (cur : Int) :
    (extractInt ⟨' ' :: natToStr v, false⟩ cur).1 = if INT_MAX < (v : Int) then INT_MAX else v := by
  obtain ⟨c, cs, hs, hc⟩ := natToStr_head v
  have hsp : isspace c = false := isspace_of_isdigit hc
  have htw := takeWhile_isdigit_natToStr v
  have hv := digitsVal_natToStr v
  rw [hs] at htw hv
  have h1 : List.dropWhile isspace (' ' :: c :: cs) = c :: cs := by
    rw [List.dropWhile_cons_of_pos (by decide), List.dropWhile_cons_of_neg (by simp [hsp])]
  unfold extractInt
  simp only [Bool.false_eq_true, if_false, hs, h1, splitSign_of_isdigit cs hc, htw, hv]
  simp only [reduceCtorEq, if_false]
  have : ¬ ((v : Int) < INT_MIN) := by unfold INT_MIN; omega
  split <;> simp [this]

/-- `read i` parses to the READ command on field `i`. -/
theorem parse_readLine (junk : Junk) (i : Fin 3) :
    Command.parse junk (readLine i.val) = ⟨.READ, i.val, 0⟩ := by
  fin_cases i <;> rfl

/-- `string` parses to the STRING command. -/
theorem parse_stringLine (junk : Junk) : Command.parse junk stringLine = ⟨.STRING, -1, 0⟩ := by
  rfl

theorem extractString_write (d : Char) (rest : Str) :
    extractString ⟨'w' :: 'r' :: 'i' :: 't' :: 'e' :: ' ' :: d :: rest, false⟩ [] =
      ("write".toList, ⟨' ' :: d :: rest, false⟩) := rfl

/-- `write i v` parses to the WRITE command on field `i`; the value is `v`, or `INT_MAX`
when `v` does not fit `int`. -/
theorem parse_writeLine (junk : Junk) (i : Fin 3) (v : Nat) :
    Command.parse junk (writeLine i.val v) =
      ⟨.WRITE, i.val, if INT_MAX < (v : Int) then INT_MAX else v⟩ := by
  have key : ∀ (d : Char) (k : Int),
      extractInt ⟨' ' :: d :: ' ' :: natToStr v, false⟩ junk.i = (k, ⟨' ' :: natToStr v, false⟩) →
      Command.parse junk ('w' :: 'r' :: 'i' :: 't' :: 'e' :: ' ' :: d :: ' ' :: natToStr v) =
        ⟨.WRITE, k, if INT_MAX < (v : Int) then INT_MAX else v⟩ := by
    intro d k hk
    unfold Command.parse
    simp only [extractString_write, if_true, hk, extractInt_blank_natToStr]
  fin_cases i
  · exact key '0' 0 rfl
  · exact key '1' 1 rfl
  · exact key '2' 2 rfl

theorem parse_line (junk : Junk) (d : Descriptor) : Command.parse junk d.line = d.cmd := by
  cases d with
  | read i => exact parse_readLine junk i
  | write i v => exact parse_writeLine junk i v
  | string => exact parse_stringLine junk

/-! ## One command on the record -/

theorem toSizeT_fin (i : Fin 3) : toSizeT (i.val : Int) = i.val := by
  fin_cases i <;> rfl

theorem fieldOk_cmd (d : Descriptor) : fieldOk d.cmd := by
  cases d with
  | read i => right; simp only [Descriptor.cmd, toSizeT_fin]; exact i.isLt
  | write i v => right; simp only [Descriptor.cmd, toSizeT_fin]; exact i.isLt
  | string => left; rfl

/-- A READ at a field index: the value is added to `acc`, `reads` is incremented. -/
theorem execCommand_read (i : Fin 3) (ds : DataStructure) (res : ExecResult) :
    execCommand ⟨.READ, i.val, 0⟩ ds res =
      ⟨none, ds, { res with reads := wrapU64 (res.reads + 1),
                            acc := wrapLL (res.acc + ds.fields i) }⟩ := by
  simp only [execCommand, toSizeT_fin, DataStructure.get, i.isLt, dite_true]

/-- A WRITE at a field index: the field is overwritten, `writes` is incremented. -/
theorem execCommand_write (i : Fin 3) (v : Int) (ds : DataStructure) (res : ExecResult) :
    execCommand ⟨.WRITE, i.val, v⟩ ds res =
      ⟨none, ⟨Function.update ds.fields i v⟩, { res with writes := wrapU64 (res.writes + 1) }⟩ := by
  simp only [execCommand, toSizeT_fin, DataStructure.set, i.isLt, dite_true]

/-- A STRING command: the length of the text is added to `acc`, `strings` is incremented. -/
theorem execCommand_string (i v : Int) (ds : DataStructure) (res : ExecResult) :
    execCommand ⟨.STRING, i, v⟩ ds res =
      ⟨none, ds, { res with strings := wrapU64 (res.strings + 1),
                            acc := wrapLL (res.acc + (ds.to_string_locked.length : Nat)) }⟩ := by
  simp only [execCommand]

/-! ## The counters along a run of commands -/

theorem countType_cons (k : CommandType) (c : Command) (cs : List Command) :
    countType k (c :: cs) = countType k cs + if c.type = k then 1 else 0 := by
  simp [countType, List.countP_cons]

/-- One command whose index is in range: no exception, and each counter moves by one exactly
when the command is of its type (stated modulo `2 ^ 64`). -/
theorem execCommand_fieldOk (c : Command) (ds : DataStructure) (res : ExecResult)
    (h : fieldOk c) :
    (execCommand c ds res).error = none ∧
    (execCommand c ds res).res.reads % 2 ^ 64
      = (res.reads + if c.type = .READ then 1 else 0) % 2 ^ 64 ∧
    (execCommand c ds res).res.writes % 2 ^ 64
      = (res.writes + if c.type = .WRITE then 1 else 0) % 2 ^ 64 ∧
    (execCommand c ds res).res.strings % 2 ^ 64
      = (res.strings + if c.type = .STRING then 1 else 0) % 2 ^ 64 := by
  obtain ⟨ty, idx, val⟩ := c
  cases ty with
  | READ =>
    have hi : toSizeT idx < 3 := by
      rcases h with h | h
      · simp at h
      · exact h
    simp [execCommand, DataStructure.get, hi, wrapU64]
  | WRITE =>
    have hi : toSizeT idx < 3 := by
      rcases h with h | h
      · simp at h
      · exact h
    simp [execCommand, DataStructure.set, hi, wrapU64]
  | STRING => simp [execCommand, wrapU64]

/-- A run of commands with indices in range: no exception, and each counter moves by the
number of commands of its type (modulo `2 ^ 64`). -/
theorem execCommands_fieldOk (cs : List Command) :
    ∀ (ds : DataStructure) (res : ExecResult), (∀ c ∈ cs, fieldOk c) →
    (execCommands cs ds res).error = none ∧
    (execCommands cs ds res).res.reads % 2 ^ 64 = (res.reads + countType .READ cs) % 2 ^ 64 ∧
    (execCommands cs ds res).res.writes % 2 ^ 64 = (res.writes + countType .WRITE cs) % 2 ^ 64 ∧
    (execCommands cs ds res).res.strings % 2 ^ 64
      = (res.strings + countType .STRING cs) % 2 ^ 64 := by
  induction cs with
  | nil => intro ds res _; simp [execCommands, countType]
  | cons c cs ih =>
    intro ds res h
    obtain ⟨he, hr, hw, hs⟩ := execCommand_fieldOk c ds res (h c (by simp))
    obtain ⟨he2, hr2, hw2, hs2⟩ := ih (execCommand c ds res).ds (execCommand c ds res).res
      (fun c hc => h c (by simp [hc]))
    simp only [execCommands, he, countType_cons]
    refine ⟨he2, ?_, ?_, ?_⟩
    · rw [hr2]; omega
    · rw [hw2]; omega
    · rw [hs2]; omega

theorem execCommand_inRange (c : Command) (ds : DataStructure) (res : ExecResult)
    (h : res.inRange) : (execCommand c ds res).res.inRange := by
  obtain ⟨ty, idx, val⟩ := c
  obtain ⟨h1, h2, h3⟩ := h
  have hm : ∀ n : Nat, n % 2 ^ 64 < 2 ^ 64 := fun n => Nat.mod_lt _ (by norm_num)
  cases ty with
  | READ =>
    simp only [execCommand, DataStructure.get]
    split <;> rename_i hh
    · split at hh
      · cases hh
      · exact ⟨h1, h2, h3⟩
    · exact ⟨hm _, h2, h3⟩
  | WRITE =>
    simp only [execCommand, DataStructure.set]
    split <;> rename_i hh
    · exact ⟨h1, h2, h3⟩
    · exact ⟨h1, hm _, h3⟩
  | STRING => exact ⟨h1, h2, hm _⟩

/-- Counters below `2 ^ 64` stay below `2 ^ 64`. -/
theorem execCommands_inRange (cs : List Command) :
    ∀ (ds : DataStructure) (res : ExecResult), res.inRange →
      (execCommands cs ds res).res.inRange := by
  induction cs with
  | nil => intro ds res h; exact h
  | cons c cs ih =>
    intro ds res h
    have h1 := execCommand_inRange c ds res h
    simp only [execCommands]
    split
    · exact h1
    · exact ih _ _ h1

/-! ## Counting descriptors -/

theorem countType_read (ops : List Descriptor) :
    countType .READ (ops.map Descriptor.cmd) = ops.countP Descriptor.isRead := by
  induction ops with
  | nil => rfl
  | cons d ops ih =>
    rw [List.map_cons, countType_cons, ih, List.countP_cons]
    cases d <;> simp [Descriptor.cmd, Descriptor.isRead]

theorem countType_write (ops : List Descriptor) :
    countType .WRITE (ops.map Descriptor.cmd) = ops.countP Descriptor.isWrite := by
  induction ops with
  | nil => rfl
  | cons d ops ih =>
    rw [List.map_cons, countType_cons, ih, List.countP_cons]
    cases d <;> simp [Descriptor.cmd, Descriptor.isWrite]

theorem countType_string (ops : List Descriptor) :
    countType .STRING (ops.map Descriptor.cmd) = ops.countP Descriptor.isString := by
  induction ops with
  | nil => rfl
  | cons d ops ih =>
    rw [List.map_cons, countType_cons, ih, List.countP_cons]
    cases d <;> simp [Descriptor.cmd, Descriptor.isString]

theorem count_kinds (ops : List Descriptor) :
    ops.countP Descriptor.isRead + ops.countP Descriptor.isWrite
      + ops.countP Descriptor.isString = ops.length := by
  induction ops with
  | nil => rfl
  | cons d ops ih =>
    simp only [List.countP_cons, List.length_cons]
    cases d <;> simp [Descriptor.isRead, Descriptor.isWrite, Descriptor.isString] <;> omega

theorem map_parse_lines (junk : Junk) (ops : List Descriptor) :
    (ops.map Descriptor.line).map (Command.parse junk) = ops.map Descriptor.cmd := by
  rw [List.map_map]
  exact List.map_congr_left (fun d _ => parse_line junk d)

/-! ## Workers interleaved on one record -/

/-- One turn of worker `t`: nobody throws, the other workers are untouched, worker `t` is left
with the tail of its commands, and no worker's final counters change. -/
theorem stepWorker_spec (s : Shared) (t : Nat)
    (hok : ∀ (u : Nat) (w : Worker), s.workers[u]? = some w → w.ok) :
    ∃ s1, stepWorker s t = some s1 ∧ s1.workers.length = s.workers.length ∧
      ∀ (u : Nat) (w1 : Worker), s1.workers[u]? = some w1 → ∃ w : Worker, s.workers[u]? = some w ∧
        w1.cmds = (if u = t then w.cmds.tail else w.cmds) ∧ w1.final = w.final := by
  unfold stepWorker
  cases hw : s.workers[t]? with
  | none =>
    refine ⟨s, rfl, rfl, ?_⟩
    intro u w1 h1
    refine ⟨w1, h1, ?_, rfl⟩
    split
    · rename_i hut
      rw [hut, hw] at h1
      cases h1
    · rfl
  | some w =>
    cases hc : w.cmds with
    | nil =>
      simp only [hc]
      refine ⟨s, rfl, rfl, ?_⟩
      intro u w1 h1
      refine ⟨w1, h1, ?_, rfl⟩
      split
      · rename_i hut
        rw [hut, hw] at h1
        cases h1
        rw [hc]; rfl
      · rfl
    | cons c rest =>
      have hf : fieldOk c := hok t w hw c (by simp [hc])
      obtain ⟨he, hr, hwr, hs⟩ := execCommand_fieldOk c s.ds w.res hf
      simp only [hc, he]
      refine ⟨_, rfl, by simp, ?_⟩
      intro u w1 h1
      by_cases hut : u = t
      · subst hut
        refine ⟨w, hw, ?_, ?_⟩
        · rw [List.getElem?_set] at h1
          simp only [if_true] at h1
          split at h1
          · cases h1
            simp [hc]
          · cases h1
        · rw [List.getElem?_set] at h1
          simp only [if_true] at h1
          split at h1
          · cases h1
            simp only [Worker.final, hc, countType_cons, Prod.mk.injEq]
            refine ⟨?_, ?_, ?_⟩ <;> omega
          · cases h1
      · rw [List.getElem?_set] at h1
        have : ¬ t = u := fun h => hut h.symm
        simp only [this, if_false] at h1
        exact ⟨w1, h1, by simp [hut], rfl⟩

/-- A whole schedule: worker `u` has dropped as many commands as it had turns, and no worker's
final counters change. -/
theorem runSchedule_spec (sched : List Nat) :
    ∀ (s : Shared), (∀ (u : Nat) (w : Worker), s.workers[u]? = some w → w.ok) →
    ∃ s1, runSchedule sched s = some s1 ∧ s1.workers.length = s.workers.length ∧
      ∀ (u : Nat) (w1 : Worker), s1.workers[u]? = some w1 → ∃ w : Worker, s.workers[u]? = some w ∧
        w1.cmds = w.cmds.drop (sched.count u) ∧ w1.final = w.final := by
  induction sched with
  | nil =>
    intro s _
    exact ⟨s, rfl, rfl, fun u w1 h1 => ⟨w1, h1, by simp, rfl⟩⟩
  | cons t ts ih =>
    intro s hok
    obtain ⟨s1, hs1, hl1, hp1⟩ := stepWorker_spec s t hok
    have hok1 : ∀ (u : Nat) (w : Worker), s1.workers[u]? = some w → w.ok := by
      intro u w1 h1 c hc
      obtain ⟨w, hw, hcm, _⟩ := hp1 u w1 h1
      apply hok u w hw c
      rw [hcm] at hc
      split at hc
      · exact List.mem_of_mem_tail hc
      · exact hc
    obtain ⟨s2, hs2, hl2, hp2⟩ := ih s1 hok1
    refine ⟨s2, by simp only [runSchedule, hs1, hs2], hl2.trans hl1, ?_⟩
    intro u w2 h2
    obtain ⟨w1, hw1, hc1, hf1⟩ := hp2 u w2 h2
    obtain ⟨w, hw, hc, hf⟩ := hp1 u w1 hw1
    refine ⟨w, hw, ?_, hf1.trans hf⟩
    rw [hc1, hc]
    by_cases hut : u = t
    · subst hut
      simp only [if_true, List.count_cons_self]
      cases w.cmds with
      | nil => simp
      | cons c cs => simp
    · have : ¬ t = u := fun h => hut h.symm
      simp [hut, List.count_cons, this]

/-! ## The totals of `run_test_variant_threads` -/

theorem sum_map_mod (m : Nat) (l : List Nat) : (l.map (fun n => n % m)).sum % m = l.sum % m := by
  induction l with
  | nil => rfl
  | cons a l ih =>
    simp only [List.map_cons, List.sum_cons]
    rw [Nat.add_mod, ih, Nat.mod_mod, ← Nat.add_mod]

theorem foldl_add_mod (l : List Nat) : ∀ a : Nat, a < 2 ^ 64 →
    l.foldl (fun a x => wrapU64 (a + x)) a = (a + l.sum) % 2 ^ 64 := by
  induction l with
  | nil => intro a ha; simp; omega
  | cons x l ih =>
    intro a ha
    have hlt : wrapU64 (a + x) < 2 ^ 64 := Nat.mod_lt _ (by norm_num)
    rw [List.foldl_cons, ih _ hlt, List.sum_cons]
    unfold wrapU64
    omega

theorem foldl_sumResults (rs : List ExecResult) : ∀ (tot : Totals),
    (rs.foldl
      (fun tot r =>
        (⟨wrapU64 (tot.total_reads + r.reads), wrapU64 (tot.total_writes + r.writes),
         wrapU64 (tot.total_strings + r.strings), wrapLL (tot.acc + r.acc)⟩ : Totals)) tot)
      = ⟨(rs.map (fun r => r.reads)).foldl (fun a x => wrapU64 (a + x)) tot.total_reads,
         (rs.map (fun r => r.writes)).foldl (fun a x => wrapU64 (a + x)) tot.total_writes,
         (rs.map (fun r => r.strings)).foldl (fun a x => wrapU64 (a + x)) tot.total_strings,
         (rs.map (fun r => r.acc)).foldl (fun a x => wrapLL (a + x)) tot.acc⟩ := by
  induction rs with
  | nil => intro tot; rfl
  | cons r rs ih => intro tot; simp only [List.foldl_cons, ih, List.map_cons]

/-- The totals are the sums of the workers' counters modulo `2 ^ 64`. -/
theorem sumResults_eq (rs : List ExecResult) :
    (sumResults rs).total_reads = (rs.map (fun r => r.reads)).sum % 2 ^ 64 ∧
    (sumResults rs).total_writes = (rs.map (fun r => r.writes)).sum % 2 ^ 64 ∧
    (sumResults rs).total_strings = (rs.map (fun r => r.strings)).sum % 2 ^ 64 := by
  unfold sumResults
  rw [foldl_sumResults]
  simp only [foldl_add_mod _ 0 (by norm_num), Nat.zero_add, and_self]

/-- The workers `run_test_variant_threads` starts for descriptor lines. -/
theorem start_workers (junk : Junk) (per : List (List Descriptor)) :
    (per.map (fun o => o.map Descriptor.line)).map
        (fun ls => (⟨ls.map (Command.parse junk), ExecResult.new⟩ : Worker))
      = per.map (fun o => (⟨o.map Descriptor.cmd, ExecResult.new⟩ : Worker)) := by
  rw [List.map_map]
  apply List.map_congr_left
  intro o _
  simp only [Function.comp, map_parse_lines]

theorem countP_le_sum (p : Descriptor → Bool) (per : List (List Descriptor)) :
    (per.map (fun o => o.countP p)).sum ≤ (per.map List.length).sum := by
  induction per with
  | nil => simp
  | cons o per ih =>
    simp only [List.map_cons, List.sum_cons]
    have := List.countP_le_length p (l := o)
    omega

/-- The state the interleaved run reaches, and what it says about every worker. -/
theorem run_spec (junk : Junk) (ds : DataStructure) (per : List (List Descriptor))
    (sched : List Nat) :
    ∃ s1, runSchedule sched
        ⟨ds, (per.map (fun o => o.map Descriptor.line)).map
          (fun ls => ⟨ls.map (Command.parse junk), ExecResult.new⟩)⟩ = some s1 ∧
      s1.workers.length = per.length ∧
      ∀ (u : Nat) (w1 : Worker), s1.workers[u]? = some w1 → ∃ o, per[u]? = some o ∧
        w1.cmds = (o.map Descriptor.cmd).drop (sched.count u) ∧
        w1.final = (o.countP Descriptor.isRead % 2 ^ 64, o.countP Descriptor.isWrite % 2 ^ 64,
          o.countP Descriptor.isString % 2 ^ 64) := by
  rw [start_workers]
  have hok : ∀ (u : Nat) (w : Worker),
      (per.map (fun o => (⟨o.map Descriptor.cmd, ExecResult.new⟩ : Worker)))[u]? = some w →
        w.ok := by
    intro u w hw c hc
    rw [List.getElem?_map] at hw
    cases ho : per[u]? with
    | none => rw [ho] at hw; cases hw
    | some o =>
      rw [ho] at hw
      cases hw
      obtain ⟨d, _, rfl⟩ := List.mem_map.mp hc
      exact fieldOk_cmd d
  obtain ⟨s1, h1, hl, hp⟩ := runSchedule_spec sched ⟨ds, _⟩ hok
  refine ⟨s1, h1, by simpa using hl, ?_⟩
  intro u w1 hw1
  obtain ⟨w, hw, hc, hf⟩ := hp u w1 hw1
  simp only [List.getElem?_map] at hw
  cases ho : per[u]? with
  | none => rw [ho] at hw; cases hw
  | some o =>
    rw [ho] at hw
    cases hw
    refine ⟨o, rfl, hc, ?_⟩
    rw [hf]
    simp [Worker.final, ExecResult.new, countType_read, countType_write, countType_string]

/-- Once every worker has finished, its counters are the counts of its lines
(modulo `2 ^ 64`). -/
theorem done_projection (per : List (List Descriptor)) (sched : List Nat) (s1 : Shared)
    (hl : s1.workers.length = per.length)
    (hp : ∀ (u : Nat) (w1 : Worker), s1.workers[u]? = some w1 → ∃ o, per[u]? = some o ∧
        w1.cmds = (o.map Descriptor.cmd).drop (sched.count u) ∧
        w1.final = (o.countP Descriptor.isRead % 2 ^ 64, o.countP Descriptor.isWrite % 2 ^ 64,
          o.countP Descriptor.isString % 2 ^ 64))
    (hdone : s1.workers.all (fun w => w.cmds.isEmpty) = true) :
    s1.workers.map (fun w => w.res.reads % 2 ^ 64)
        = per.map (fun o => o.countP Descriptor.isRead % 2 ^ 64) ∧
    s1.workers.map (fun w => w.res.writes % 2 ^ 64)
        = per.map (fun o => o.countP Descriptor.isWrite % 2 ^ 64) ∧
    s1.workers.map (fun w => w.res.strings % 2 ^ 64)
        = per.map (fun o => o.countP Descriptor.isString % 2 ^ 64) := by
  have key : ∀ (u : Nat) (w1 : Worker), s1.workers[u]? = some w1 → ∃ o, per[u]? = some o ∧
      w1.res.reads % 2 ^ 64 = o.countP Descriptor.isRead % 2 ^ 64 ∧
      w1.res.writes % 2 ^ 64 = o.countP Descriptor.isWrite % 2 ^ 64 ∧
      w1.res.strings % 2 ^ 64 = o.countP Descriptor.isString % 2 ^ 64 := by
    intro u w1 hw1
    obtain ⟨o, ho, _, hf⟩ := hp u w1 hw1
    have hmem : w1 ∈ s1.workers := List.mem_iff_getElem?.mpr ⟨u, hw1⟩
    have hemp : w1.cmds = [] := by
      have := List.all_eq_true.mp hdone w1 hmem
      simpa using this
    simp only [Worker.final, hemp, countType, List.countP_nil, Nat.add_zero,
      Prod.mk.injEq] at hf
    exact ⟨o, ho, hf⟩
  refine ⟨?_, ?_, ?_⟩ <;>
  · apply List.ext_getElem?
    intro u
    simp only [List.getElem?_map]
    cases h1 : s1.workers[u]? with
    | none =>
      have : per[u]? = none := by
        rw [List.getElem?_eq_none_iff] at h1 ⊢
        omega
      simp [this]
    | some w1 =>
      obtain ⟨o, ho, hr, hw, hs⟩ := key u w1 h1
      simp only [ho, Option.map_some', hr, hw, hs]

theorem total_of_congr (m : Nat) (xs ys : List Nat)
    (h : xs.map (fun n => n % m) = ys.map (fun n => n % m)) (hy : ys.sum < m) :
    xs.sum % m = ys.sum := by
  rw [← sum_map_mod m xs, h, sum_map_mod m ys, Nat.mod_eq_of_lt hy]

/-! ## C1: count conservation -/

/-- Claim C1 (count conservation). Let `ops` be any sequence of well-formed descriptor lines
(`read i`, `write i v`, `string`, with `i` a field index), `R`, `W` and `S` the numbers of its
read, write and string lines, and let the counters have room for them (`uint64_t`).
Then, whatever the record holds, `execute_commands_on_ds` finishes without an exception and
leaves `reads`, `writes` and `strings` increased by exactly `R`, `W` and `S`, where
`R + W + S` is the length of the sequence. For workers started by `run_test_variant_threads`
on one shared record, under every interleaving of their commands: when the run returns, the
totals are the sums of the per-worker `R`, `W` and `S`; and the run does return as soon as
the schedule gives every worker as many turns as it has lines. -/
theorem count_conservation (junk : Junk) (ds : DataStructure) (res : ExecResult)
    (ops : List Descriptor) (per : List (List Descriptor)) (sched : List Nat)
    (hr : res.reads + ops.countP Descriptor.isRead < 2 ^ 64)
    (hw : res.writes + ops.countP Descriptor.isWrite < 2 ^ 64)
    (hs : res.strings + ops.countP Descriptor.isString < 2 ^ 64)
    (hper : (per.map List.length).sum < 2 ^ 64) :
    ((execute_commands_on_ds junk ds (ops.map Descriptor.line) res).error = none ∧
      (execute_commands_on_ds junk ds (ops.map Descriptor.line) res).res.reads
        = res.reads + ops.countP Descriptor.isRead ∧
      (execute_commands_on_ds junk ds (ops.map Descriptor.line) res).res.writes
        = res.writes + ops.countP Descriptor.isWrite ∧
      (execute_commands_on_ds junk ds (ops.map Descriptor.line) res).res.strings
        = res.strings + ops.countP Descriptor.isString ∧
      ops.countP Descriptor.isRead + ops.countP Descriptor.isWrite
        + ops.countP Descriptor.isString = ops.length) ∧
    (∀ r, run_test_variant_threads junk ds (per.map (fun o => o.map Descriptor.line)) sched
        = some r →
      r.2.total_reads = (per.map (fun o => o.countP Descriptor.isRead)).sum ∧
      r.2.total_writes = (per.map (fun o => o.countP Descriptor.isWrite)).sum ∧
      r.2.total_strings = (per.map (fun o => o.countP Descriptor.isString)).sum) ∧
    ((∀ (t : Nat) (o : List Descriptor), per[t]? = some o → o.length ≤ sched.count t) →
      (run_test_variant_threads junk ds (per.map (fun o => o.map Descriptor.line)) sched).isSome
        = true) := by
  refine ⟨?_, ?_, ?_⟩
  · have hok : ∀ c ∈ ops.map Descriptor.cmd, fieldOk c := by
      intro c hc
      obtain ⟨d, _, rfl⟩ := List.mem_map.mp hc
      exact fieldOk_cmd d
    have hin : res.inRange := ⟨by omega, by omega, by omega⟩
    obtain ⟨he, h1, h2, h3⟩ := execCommands_fieldOk (ops.map Descriptor.cmd) ds res hok
    obtain ⟨b1, b2, b3⟩ := execCommands_inRange (ops.map Descriptor.cmd) ds res hin
    rw [countType_read] at h1
    rw [countType_write] at h2
    rw [countType_string] at h3
    unfold execute_commands_on_ds
    rw [map_parse_lines]
    refine ⟨he, ?_, ?_, ?_, count_kinds ops⟩ <;> omega
  · intro r hrun
    obtain ⟨s1, h1, hl, hp⟩ := run_spec junk ds per sched
    unfold run_test_variant_threads at hrun
    simp only [h1] at hrun
    split at hrun
    · rename_i hdone
      cases hrun
      obtain ⟨e1, e2, e3⟩ := done_projection per sched s1 hl hp hdone
      obtain ⟨t1, t2, t3⟩ := sumResults_eq (s1.workers.map (fun w => w.res))
      simp only [List.map_map] at t1 t2 t3
      have c1 := countP_le_sum Descriptor.isRead per
      have c2 := countP_le_sum Descriptor.isWrite per
      have c3 := countP_le_sum Descriptor.isString per
      refine ⟨?_, ?_, ?_⟩
      · rw [t1]
        apply total_of_congr
        · simpa [List.map_map, Function.comp] using e1
        · omega
      · rw [t2]
        apply total_of_congr
        · simpa [List.map_map, Function.comp] using e2
        · omega
      · rw [t3]
        apply total_of_congr
        · simpa [List.map_map, Function.comp] using e3
        · omega
    · cases hrun
  · intro hfair
    obtain ⟨s1, h1, hl, hp⟩ := run_spec junk ds per sched
    unfold run_test_variant_threads
    simp only [h1]
    have hdone : s1.workers.all (fun w => w.cmds.isEmpty) = true := by
      rw [List.all_eq_true]
      intro w1 hw1
      obtain ⟨u, hu⟩ := List.mem_iff_getElem?.mp hw1
      obtain ⟨o, ho, hc, _⟩ := hp u w1 hu
      have := hfair u o ho
      rw [hc]
      simp only [List.isEmpty_eq_true, List.drop_eq_nil_iff, List.length_map]
      exact this
    simp [hdone]

/-- Claim C1 at four lines on a fresh record, and at two workers of two lines each under the
interleaving 0, 1, 1, 0. -/
theorem count_conservation_witness :
    (ExecResult.new.reads
        + [Descriptor.write 0 5, .read 0, .string, .read 1].countP Descriptor.isRead < 2 ^ 64 ∧
      ExecResult.new.writes
        + [Descriptor.write 0 5, .read 0, .string, .read 1].countP Descriptor.isWrite < 2 ^ 64 ∧
      ExecResult.new.strings
        + [Descriptor.write 0 5, .read 0, .string, .read 1].countP Descriptor.isString < 2 ^ 64 ∧
      ([[Descriptor.write 0 5, .read 0], [.string, .read 1]].map List.length).sum < 2 ^ 64) ∧
    ((execute_commands_on_ds ⟨0, 0⟩ DataStructure.new
        ["write 0 5".toList, "read 0".toList, "string".toList, "read 1".toList]
        ExecResult.new).error = none ∧
      (execute_commands_on_ds ⟨0, 0⟩ DataStructure.new
        ["write 0 5".toList, "read 0".toList, "string".toList, "read 1".toList]
        ExecResult.new).res.reads = 2 ∧
      (execute_commands_on_ds ⟨0, 0⟩ DataStructure.new
        ["write 0 5".toList, "read 0".toList, "string".toList, "read 1".toList]
        ExecResult.new).res.writes = 1 ∧
      (execute_commands_on_ds ⟨0, 0⟩ DataStructure.new
        ["write 0 5".toList, "read 0".toList, "string".toList, "read 1".toList]
        ExecResult.new).res.strings = 1 ∧
      2 + 1 + 1 = 4) ∧
    (run_test_variant_threads ⟨0, 0⟩ DataStructure.new
        [["write 0 5".toList, "read 0".toList], ["string".toList, "read 1".toList]]
        [0, 1, 1, 0]).isSome = true :=
  ⟨⟨by decide, by decide, by decide, by decide⟩,
   (count_conservation ⟨0, 0⟩ DataStructure.new ExecResult.new
      [Descriptor.write 0 5, .read 0, .string, .read 1]
      [[Descriptor.write 0 5, .read 0], [.string, .read 1]] [0, 1, 1, 0]
      (by decide) (by decide) (by decide) (by decide)).1,
   (count_conservation ⟨0, 0⟩ DataStructure.new ExecResult.new
      [Descriptor.write 0 5, .read 0, .string, .read 1]
      [[Descriptor.write 0 5, .read 0], [.string, .read 1]] [0, 1, 1, 0]
      (by decide) (by decide) (by decide) (by decide)).2.2
      (by
        intro t o h
        rcases t with _ | _ | t
        · simp at h; subst h; decide
        · simp at h; subst h; decide
        · simp at h)⟩

/-! ## C2: no lost updates -/

theorem wrapLL_of_inRange (x : Int) (h1 : LLONG_MIN ≤ x) (h2 : x ≤ LLONG_MAX) : wrapLL x = x := by
  unfold wrapLL
  unfold LLONG_MIN at h1
  unfold LLONG_MAX at h2
  omega

/-- A run of writes to one field: no exception, only the `writes` counter moves, and the
field ends up holding the last value. -/
theorem execCommands_writes (i : Fin 3) (rest : List Command) (vs : List Int) :
    ∀ (ds : DataStructure) (res : ExecResult), ∃ ds1 res1,
      execCommands (vs.map (fun v => (⟨.WRITE, i.val, v⟩ : Command)) ++ rest) ds res
        = execCommands rest ds1 res1 ∧
      res1.acc = res.acc ∧ res1.reads = res.reads ∧ res1.strings = res.strings ∧
      (vs = [] → ds1 = ds) ∧ (∀ h : vs ≠ [], ds1.fields i = vs.getLast h) := by
  induction vs with
  | nil => intro ds res; exact ⟨ds, res, rfl, rfl, rfl, rfl, fun _ => rfl, fun h => absurd rfl h⟩
  | cons v vs ih =>
    intro ds res
    obtain ⟨ds1, res1, he, ha, hr, hs, hn, hl⟩ :=
      ih ⟨Function.update ds.fields i v⟩ { res with writes := wrapU64 (res.writes + 1) }
    refine ⟨ds1, res1, ?_, ha, hr, hs, fun h => absurd h (by simp), ?_⟩
    · simp only [List.map_cons, List.cons_append, execCommands, execCommand_write]
      exact he
    · intro _
      cases vs with
      | nil =>
        rw [hn rfl]
        simp
      | cons w ws =>
        rw [List.getLast_cons (by simp)]
        exact hl (by simp)

/-- Claim C2 (no lost updates, one thread). For a field index `i`, any record, and a non-empty
list of values `v1 .. vk` that fit `int`, the lines `write i v1`, ..., `write i vk`, `read i`
run without an exception, leave field `i` equal to `vk`, and add exactly `vk` to `acc`
(the sum being a `long long`). -/
theorem no_lost_update (junk : Junk) (ds : DataStructure) (res : ExecResult) (i : Fin 3)
    (vs : List Nat) (hne : vs ≠ [])
    (hint : ∀ v ∈ vs, (v : Int) ≤ INT_MAX)
    (hlo : LLONG_MIN ≤ res.acc + (vs.getLast hne : Nat))
    (hhi : res.acc + (vs.getLast hne : Nat) ≤ LLONG_MAX) :
    (execute_commands_on_ds junk ds
        (vs.map (fun v => writeLine i.val v) ++ [readLine i.val]) res).error = none ∧
    (execute_commands_on_ds junk ds
        (vs.map (fun v => writeLine i.val v) ++ [readLine i.val]) res).ds.fields i
      = (vs.getLast hne : Nat) ∧
    (execute_commands_on_ds junk ds
        (vs.map (fun v => writeLine i.val v) ++ [readLine i.val]) res).res.acc
      = res.acc + (vs.getLast hne : Nat) := by
  have hparse : (vs.map (fun v => writeLine i.val v) ++ [readLine i.val]).map (Command.parse junk)
      = (vs.map (fun v : Nat => (v : Int))).map (fun v => (⟨.WRITE, i.val, v⟩ : Command))
          ++ [⟨.READ, i.val, 0⟩] := by
    simp only [List.map_append, List.map_map, List.map_cons, List.map_nil, parse_readLine]
    congr 1
    apply List.map_congr_left
    intro v hv
    have : ¬ INT_MAX < (v : Int) := not_lt.mpr (hint v hv)
    simp only [Function.comp, parse_writeLine, this, if_false]
  obtain ⟨ds1, res1, he, ha, _, _, _, hl⟩ :=
    execCommands_writes i [⟨.READ, i.val, 0⟩] (vs.map (fun v : Nat => (v : Int))) ds res
  have hne2 : vs.map (fun v : Nat => (v : Int)) ≠ [] := by simpa using hne
  have hlast : ds1.fields i = (vs.getLast hne : Nat) := by
    rw [hl hne2, List.getLast_map]
  unfold execute_commands_on_ds
  rw [hparse, he]
  simp only [execCommands, execCommand_read, hlast, ha]
  exact ⟨trivial, trivial, wrapLL_of_inRange _ hlo hhi⟩

/-- Claim C2 at the scenario of the specification: `write 0 5`, `read 0` on a fresh record
give `acc = 5` and field 0 equal to 5. -/
theorem no_lost_update_witness :
    (([5] : List Nat) ≠ [] ∧ (∀ v ∈ ([5] : List Nat), (v : Int) ≤ INT_MAX) ∧
      LLONG_MIN ≤ ExecResult.new.acc + 5 ∧ ExecResult.new.acc + 5 ≤ LLONG_MAX) ∧
    (execute_commands_on_ds ⟨0, 0⟩ DataStructure.new ["write 0 5".toList, "read 0".toList]
      ExecResult.new).error = none ∧
    (execute_commands_on_ds ⟨0, 0⟩ DataStructure.new ["write 0 5".toList, "read 0".toList]
      ExecResult.new).ds.fields 0 = 5 ∧
    (execute_commands_on_ds ⟨0, 0⟩ DataStructure.new ["write 0 5".toList, "read 0".toList]
      ExecResult.new).res.acc = 5 :=
  ⟨⟨by decide, by decide, by decide, by decide⟩,
   no_lost_update ⟨0, 0⟩ DataStructure.new ExecResult.new 0 [5] (by decide) (by decide)
     (by decide) (by decide)⟩

end Github

/-! ## C3: the serialized text -/

theorem natToStr_injective {a b : Nat} (h : natToStr a = natToStr b) : a = b := by
  rw [← digitsVal_natToStr a, ← digitsVal_natToStr b, h]

/-- Two digit runs, each followed by a character that is no digit: equal texts have equal
runs and equal remainders. -/
theorem digit_run_unique : ∀ (xs ys : Str) (c d : Char) (r q : Str),
    (∀ x ∈ xs, isdigit x = true) → (∀ y ∈ ys, isdigit y = true) →
    isdigit c = false → isdigit d = false →
    xs ++ c :: r = ys ++ d :: q → xs = ys ∧ r = q := by
  intro xs
  induction xs with
  | nil =>
    intro ys c d r q _ hy hc _ h
    cases ys with
    | nil =>
      simp only [List.nil_append, List.cons.injEq] at h
      exact ⟨rfl, h.2⟩
    | cons y ys =>
      simp only [List.nil_append, List.cons_append, List.cons.injEq] at h
      have := hy y (by simp)
      rw [← h.1, hc] at this
      cases this
  | cons x xs ih =>
    intro ys c d r q hx hy hc hd h
    cases ys with
    | nil =>
      simp only [List.nil_append, List.cons_append, List.cons.injEq] at h
      have := hx x (by simp)
      rw [h.1, hd] at this
      cases this
    | cons y ys =>
      simp only [List.cons_append, List.cons.injEq] at h
      obtain ⟨e1, e2⟩ := ih ys c d r q (fun a ha => hx a (by simp [ha]))
        (fun a ha => hy a (by simp [ha])) hc hd h.2
      exact ⟨by rw [h.1, e1], e2⟩

namespace Github

/-- The text `operator std::string` builds determines the three (non-negative) values. -/
theorem toStdString_injective (a b c x y z : Nat)
    (h : "DataStructure\x7b0:".toList ++ natToStr a ++ ", 1:".toList ++ natToStr b
          ++ ", 2:".toList ++ natToStr c ++ "\x7d".toList
        = "DataStructure\x7b0:".toList ++ natToStr x ++ ", 1:".toList ++ natToStr y
          ++ ", 2:".toList ++ natToStr z ++ "\x7d".toList) :
    a = x ∧ b = y ∧ c = z := by
  simp only [String.toList, List.append_assoc, List.cons_append, List.nil_append,
    List.cons.injEq, true_and] at h
  obtain ⟨e1, h1⟩ := digit_run_unique _ _ _ _ _ _ (natToStr_isdigit a) (natToStr_isdigit x)
    (by decide) (by decide) h
  simp only [List.cons.injEq, true_and] at h1
  obtain ⟨e2, h2⟩ := digit_run_unique _ _ _ _ _ _ (natToStr_isdigit b) (natToStr_isdigit y)
    (by decide) (by decide) h1
  simp only [List.cons.injEq, true_and] at h2
  obtain ⟨e3, _⟩ := digit_run_unique _ _ _ _ _ _ (natToStr_isdigit c) (natToStr_isdigit z)
    (by decide) (by decide) h2
  exact ⟨natToStr_injective e1, natToStr_injective e2, natToStr_injective e3⟩

theorem intToStr_natCast (n : Nat) : intToStr (n : Int) = natToStr n := by
  unfold intToStr
  have : ¬ ((n : Int) < 0) := by omega
  simp only [this, if_false, Int.natAbs_ofNat]

/-- Claim C3 (serialization scenario). For values `a`, `b`, `c` that fit `int`, the lines
`write 0 a`, `write 1 b`, `write 2 c`, `string` run on a fresh record without an exception;
the text the string conversion builds is `DataStructure{0:a, 1:b, 2:c}` in decimal; `acc`
grows by exactly the length of that text (the sum being a `long long`), `strings` by 1 and
`writes` by 3 (the counters having room); and the text determines the triple: two triples
with the same text are equal. -/
theorem serialization_scenario (junk : Junk) (res : ExecResult) (a b c : Nat)
    (ha : (a : Int) ≤ INT_MAX) (hb : (b : Int) ≤ INT_MAX) (hc : (c : Int) ≤ INT_MAX)
    (hw : res.writes + 3 < 2 ^ 64) (hs : res.strings + 1 < 2 ^ 64)
    (hlo : LLONG_MIN ≤ res.acc)
    (hhi : res.acc + (("DataStructure\x7b0:".toList ++ natToStr a ++ ", 1:".toList ++ natToStr b
          ++ ", 2:".toList ++ natToStr c ++ "\x7d".toList).length : Nat) ≤ LLONG_MAX) :
    (execute_commands_on_ds junk DataStructure.new
        [writeLine 0 a, writeLine 1 b, writeLine 2 c, stringLine] res).error = none ∧
    (execute_commands_on_ds junk DataStructure.new
        [writeLine 0 a, writeLine 1 b, writeLine 2 c, stringLine] res).ds.to_string_locked
      = "DataStructure\x7b0:".toList ++ natToStr a ++ ", 1:".toList ++ natToStr b
          ++ ", 2:".toList ++ natToStr c ++ "\x7d".toList ∧
    (execute_commands_on_ds junk DataStructure.new
        [writeLine 0 a, writeLine 1 b, writeLine 2 c, stringLine] res).res.acc
      = res.acc + (("DataStructure\x7b0:".toList ++ natToStr a ++ ", 1:".toList ++ natToStr b
          ++ ", 2:".toList ++ natToStr c ++ "\x7d".toList).length : Nat) ∧
    (execute_commands_on_ds junk DataStructure.new
        [writeLine 0 a, writeLine 1 b, writeLine 2 c, stringLine] res).res.strings
      = res.strings + 1 ∧
    (execute_commands_on_ds junk DataStructure.new
        [writeLine 0 a, writeLine 1 b, writeLine 2 c, stringLine] res).res.writes
      = res.writes + 3 ∧
    (∀ x y z : Nat,
      "DataStructure\x7b0:".toList ++ natToStr a ++ ", 1:".toList ++ natToStr b
          ++ ", 2:".toList ++ natToStr c ++ "\x7d".toList
        = "DataStructure\x7b0:".toList ++ natToStr x ++ ", 1:".toList ++ natToStr y
          ++ ", 2:".toList ++ natToStr z ++ "\x7d".toList →
      a = x ∧ b = y ∧ c = z) := by
  have p0 := parse_writeLine junk 0 a
  have p1 := parse_writeLine junk 1 b
  have p2 := parse_writeLine junk 2 c
  have ps := parse_stringLine junk
  simp only [not_lt.mpr ha, not_lt.mpr hb, not_lt.mpr hc, if_false] at p0 p1 p2
  have hexec : execute_commands_on_ds junk DataStructure.new
      [writeLine 0 a, writeLine 1 b, writeLine 2 c, stringLine] res
      = execCommands [⟨.WRITE, ((0 : Fin 3).val : Nat), a⟩, ⟨.WRITE, ((1 : Fin 3).val : Nat), b⟩,
          ⟨.WRITE, ((2 : Fin 3).val : Nat), c⟩, ⟨.STRING, -1, 0⟩] DataStructure.new res := by
    unfold execute_commands_on_ds
    simp only [List.map_cons, List.map_nil]
    rw [← p0, ← p1, ← p2, ← ps]
    rfl
  rw [hexec]
  simp only [execCommands, execCommand_write, execCommand_string]
  have hstr : DataStructure.to_string_locked
      ⟨Function.update (Function.update (Function.update DataStructure.new.fields 0 (a : Int))
        1 (b : Int)) 2 (c : Int)⟩
      = "DataStructure\x7b0:".toList ++ natToStr a ++ ", 1:".toList ++ natToStr b
          ++ ", 2:".toList ++ natToStr c ++ "\x7d".toList := by
    simp [DataStructure.to_string_locked, DataStructure.toStdString, Function.update,
      intToStr_natCast]
  rw [hstr]
  refine ⟨trivial, rfl, ?_, ?_, ?_, ?_⟩
  · apply wrapLL_of_inRange
    · have : (0 : Int) ≤ ((("DataStructure\x7b0:".toList ++ natToStr a ++ ", 1:".toList
          ++ natToStr b ++ ", 2:".toList ++ natToStr c ++ "\x7d".toList).length : Nat) : Int) :=
        Int.natCast_nonneg _
      omega
    · exact hhi
  · simp only [wrapU64]; omega
  · simp only [wrapU64]; omega
  · intro x y z h
    exact toStdString_injective a b c x y z h

/-- Claim C3 at the scenario of the specification: the values 1, 2, 3 give the text
`DataStructure{0:1, 1:2, 2:3}`, of length 28, and `acc = 28` from a fresh result. -/
theorem serialization_scenario_witness :
    (((1 : Nat) : Int) ≤ INT_MAX ∧ ((2 : Nat) : Int) ≤ INT_MAX ∧ ((3 : Nat) : Int) ≤ INT_MAX ∧
      ExecResult.new.writes + 3 < 2 ^ 64 ∧ ExecResult.new.strings + 1 < 2 ^ 64 ∧
      LLONG_MIN ≤ ExecResult.new.acc ∧ ExecResult.new.acc + 28 ≤ LLONG_MAX) ∧
    (execute_commands_on_ds ⟨0, 0⟩ DataStructure.new
      ["write 0 1".toList, "write 1 2".toList, "write 2 3".toList, "string".toList]
      ExecResult.new).ds.to_string_locked = "DataStructure\x7b0:1, 1:2, 2:3\x7d".toList ∧
    (execute_commands_on_ds ⟨0, 0⟩ DataStructure.new
      ["write 0 1".toList, "write 1 2".toList, "write 2 3".toList, "string".toList]
      ExecResult.new).res.acc = 28 ∧
    (execute_commands_on_ds ⟨0, 0⟩ DataStructure.new
      ["write 0 1".toList, "write 1 2".toList, "write 2 3".toList, "string".toList]
      ExecResult.new).res.strings = 1 ∧
    (execute_commands_on_ds ⟨0, 0⟩ DataStructure.new
      ["write 0 1".toList, "write 1 2".toList, "write 2 3".toList, "string".toList]
      ExecResult.new).res.writes = 3 :=
  ⟨⟨by decide, by decide, by decide, by decide, by decide, by decide, by decide⟩,
   (serialization_scenario ⟨0, 0⟩ ExecResult.new 1 2 3 (by decide) (by decide) (by decide)
      (by decide) (by decide) (by decide) (by decide)).2.1,
   (serialization_scenario ⟨0, 0⟩ ExecResult.new 1 2 3 (by decide) (by decide) (by decide)
      (by decide) (by decide) (by decide) (by decide)).2.2.1,
   (serialization_scenario ⟨0, 0⟩ ExecResult.new 1 2 3 (by decide) (by decide) (by decide)
      (by decide) (by decide) (by decide) (by decide)).2.2.2.1,
   (serialization_scenario ⟨0, 0⟩ ExecResult.new 1 2 3 (by decide) (by decide) (by decide)
      (by decide) (by decide) (by decide) (by decide)).2.2.2.2.1⟩

/-! ## C4: index errors -/

theorem toSizeT_neg (idx : Int) (h1 : INT_MIN ≤ idx) (h2 : idx < 0) : ¬ toSizeT idx < 3 := by
  unfold toSizeT
  unfold INT_MIN at h1
  omega

/-- Claim C4 (index errors). `get` throws exactly when `i` is none of 0, 1, 2, and so does
`set`; a `set` that throws leaves the three fields as they were; `get` at a field index returns
that field. A negative `int` index, once cast to `size_t`, is none of 0, 1, 2: the READ and
the WRITE case of `execute_commands_on_ds` throw `out_of_range` there and the record keeps
its fields. -/
theorem index_errors (ds : DataStructure) (i : Nat) (v : Int) (idx : Int) (res : ExecResult) :
    ((∃ e, ds.get i = .error e) ↔ ¬ (i = 0 ∨ i = 1 ∨ i = 2)) ∧
    ((ds.set i v).1.isSome = true ↔ ¬ (i = 0 ∨ i = 1 ∨ i = 2)) ∧
    (¬ (i = 0 ∨ i = 1 ∨ i = 2) → (ds.set i v).2.fields = ds.fields) ∧
    (∀ k : Fin 3, ds.get k.val = .ok (ds.fields k)) ∧
    (INT_MIN ≤ idx → idx < 0 →
      ¬ (toSizeT idx = 0 ∨ toSizeT idx = 1 ∨ toSizeT idx = 2) ∧
      (execCommand ⟨.READ, idx, 0⟩ ds res).error = some "get idx" ∧
      (execCommand ⟨.WRITE, idx, v⟩ ds res).error = some "set idx" ∧
      (execCommand ⟨.WRITE, idx, v⟩ ds res).ds.fields = ds.fields) := by
  have hiff : (i = 0 ∨ i = 1 ∨ i = 2) ↔ i < 3 := by omega
  refine ⟨?_, ?_, ?_, ?_, ?_⟩
  · rw [hiff]
    unfold DataStructure.get
    by_cases h : i < 3
    · simp [h]
    · simp [h]
  · rw [hiff]
    unfold DataStructure.set
    by_cases h : i < 3
    · simp [h]
    · simp [h]
  · rw [hiff]
    intro h
    simp [DataStructure.set, h]
  · intro k
    simp [DataStructure.get, k.isLt]
  · intro h1 h2
    have hn := toSizeT_neg idx h1 h2
    refine ⟨by omega, ?_, ?_, ?_⟩
    · simp [execCommand, DataStructure.get, hn]
    · simp [execCommand, DataStructure.set, hn]
    · simp [execCommand, DataStructure.set, hn]

/-! ## C5: lines that are no descriptor -/

theorem extractString_fst (line : Str) : (extractString ⟨line, false⟩ []).1 = firstToken line := by
  unfold extractString firstToken
  by_cases h : List.dropWhile isspace line = []
  · simp [h]
  · simp [h]

/-- The type of the parsed command is decided by the first token alone. -/
theorem parse_type (junk : Junk) (line : Str) :
    ((Command.parse junk line).type = .WRITE ↔ firstToken line = "write".toList) ∧
    ((Command.parse junk line).type = .READ ↔ firstToken line = "read".toList) ∧
    (firstToken line ≠ "write".toList → firstToken line ≠ "read".toList →
      Command.parse junk line = ⟨.STRING, -1, 0⟩) := by
  unfold Command.parse
  simp only [extractString_fst]
  by_cases hw : firstToken line = "write".toList
  · simp [hw]
  · by_cases hr : firstToken line = "read".toList
    · simp [hr]
    · simp only [if_neg hw, if_neg hr]
      exact ⟨⟨fun h => (by cases h), fun h => absurd h hw⟩,
        ⟨fun h => (by cases h), fun h => absurd h hr⟩, fun _ _ => trivial⟩

/-- A run of STRING commands: no exception, the record and the other counters untouched. -/
theorem execCommands_strings (n : Nat) : ∀ (ds : DataStructure) (res : ExecResult),
    (execCommands (List.replicate n ⟨.STRING, -1, 0⟩) ds res).error = none ∧
    (execCommands (List.replicate n ⟨.STRING, -1, 0⟩) ds res).ds.fields = ds.fields ∧
    (execCommands (List.replicate n ⟨.STRING, -1, 0⟩) ds res).res.reads = res.reads ∧
    (execCommands (List.replicate n ⟨.STRING, -1, 0⟩) ds res).res.writes = res.writes ∧
    (execCommands (List.replicate n ⟨.STRING, -1, 0⟩) ds res).res.strings % 2 ^ 64
      = (res.strings + n) % 2 ^ 64 := by
  induction n with
  | zero => intro ds res; simp [execCommands]
  | succ n ih =>
    intro ds res
    simp only [List.replicate_succ, execCommands, execCommand_string]
    obtain ⟨h1, h2, h3, h4, h5⟩ := ih ds
      { res with strings := wrapU64 (res.strings + 1),
                 acc := wrapLL (res.acc + (ds.to_string_locked.length : Nat)) }
    refine ⟨h1, h2, h3, h4, ?_⟩
    rw [h5]
    simp only [wrapU64]
    omega

/-- Claim C5 as stated fails: the malformed line "bogus" raises nothing, it is parsed as the
STRING command and run as a serialization; "read x" becomes a read of field 0 and
"write 0 x" a write of 0 to field 0. -/
theorem malformed_line_accepted :
    Command.parse ⟨7, 9⟩ "bogus".toList = ⟨.STRING, -1, 0⟩ ∧
    (execute_commands_on_ds ⟨7, 9⟩ DataStructure.new ["bogus".toList] ExecResult.new).error
      = none ∧
    (execute_commands_on_ds ⟨7, 9⟩ DataStructure.new ["bogus".toList] ExecResult.new).res
      = ⟨0, 0, 1, 28⟩ ∧
    Command.parse ⟨7, 9⟩ "read x".toList = ⟨.READ, 0, 0⟩ ∧
    Command.parse ⟨7, 9⟩ "write 0 x".toList = ⟨.WRITE, 0, 0⟩ := by
  decide

/-- Claim C5, amended. `Command::parse` raises no error: it yields a WRITE exactly for the
lines whose first white-space delimited token is `write`, a READ exactly for those whose first
token is `read`, and the STRING command (index -1, value 0) for every other line.
`execute_commands_on_ds` runs lines of the last kind as serializations: no exception, the
fields, `reads` and `writes` unchanged, `strings` advanced by one per line (modulo `2 ^ 64`). -/
theorem other_lines_run_as_string (junk : Junk) (ds : DataStructure) (res : ExecResult)
    (lines : List Str)
    (h : ∀ l ∈ lines, firstToken l ≠ "write".toList ∧ firstToken l ≠ "read".toList) :
    (∀ line : Str,
      ((Command.parse junk line).type = .WRITE ↔ firstToken line = "write".toList) ∧
      ((Command.parse junk line).type = .READ ↔ firstToken line = "read".toList)) ∧
    (∀ l ∈ lines, Command.parse junk l = ⟨.STRING, -1, 0⟩) ∧
    (execute_commands_on_ds junk ds lines res).error = none ∧
    (execute_commands_on_ds junk ds lines res).ds.fields = ds.fields ∧
    (execute_commands_on_ds junk ds lines res).res.reads = res.reads ∧
    (execute_commands_on_ds junk ds lines res).res.writes = res.writes ∧
    (execute_commands_on_ds junk ds lines res).res.strings % 2 ^ 64
      = (res.strings + lines.length) % 2 ^ 64 := by
  have hp : ∀ l ∈ lines, Command.parse junk l = ⟨.STRING, -1, 0⟩ :=
    fun l hl => (parse_type junk l).2.2 (h l hl).1 (h l hl).2
  have hmap : lines.map (Command.parse junk) = List.replicate lines.length ⟨.STRING, -1, 0⟩ := by
    rw [List.eq_replicate_iff]
    refine ⟨by simp, ?_⟩
    intro c hc
    obtain ⟨l, hl, rfl⟩ := List.mem_map.mp hc
    exact hp l hl
  unfold execute_commands_on_ds
  rw [hmap]
  exact ⟨fun line => ⟨(parse_type junk line).1, (parse_type junk line).2.1⟩, hp,
    execCommands_strings lines.length ds res⟩

/-- The amended C5 at the lines "bogus" and the empty line, on a fresh record. -/
theorem other_lines_run_as_string_witness :
    (∀ l ∈ ["bogus".toList, []],
      firstToken l ≠ "write".toList ∧ firstToken l ≠ "read".toList) ∧
    (execute_commands_on_ds ⟨7, 9⟩ DataStructure.new ["bogus".toList, []] ExecResult.new).error
      = none ∧
    (execute_commands_on_ds ⟨7, 9⟩ DataStructure.new ["bogus".toList, []]
      ExecResult.new).res.strings % 2 ^ 64 = (ExecResult.new.strings + 2) % 2 ^ 64 :=
  ⟨by decide,
   (other_lines_run_as_string ⟨7, 9⟩ DataStructure.new ExecResult.new ["bogus".toList, []]
      (by decide)).2.2.1,
   (other_lines_run_as_string ⟨7, 9⟩ DataStructure.new ExecResult.new ["bogus".toList, []]
      (by decide)).2.2.2.2.2.2⟩

end Github

namespace Variant12

/-! ## C6: the value of a write in `executeFile` -/

theorem execOp_writeLine (i : Fin 3) (v : Nat) (ds : DataStructure) :
    execOp (writeLine i.val v) ds = some ⟨Function.update ds.fields i 1⟩ := by
  fin_cases i <;> rfl

/-- Claim C6 as stated fails: `write 0 5` run through the loop of `executeFile` on a fresh
record leaves field 0 equal to 1, not 5. -/
theorem write_value_ignored :
    (executeFile ["write 0 5".toList] DataStructure.new).map (fun d => d.fields 0) = some 1 ∧
    (executeFile ["write 0 5".toList] DataStructure.new).map (fun d => d.fields 0) ≠ some 5 := by
  decide

/-- Claim C6, amended. For every field index `i` and every value `v`, the line `write i v` run
through the loop of `executeFile` sets field `i` to the constant 1, whatever `v` is, and
leaves the other fields as they were. -/
theorem write_stores_one (i : Fin 3) (v : Nat) (ds : DataStructure) :
    ∃ d, executeFile [writeLine i.val v] ds = some d ∧ d.fields i = 1 ∧
      ∀ j : Fin 3, j ≠ i → d.fields j = ds.fields j := by
  refine ⟨⟨Function.update ds.fields i 1⟩, ?_, ?_, ?_⟩
  · simp only [executeFile, execOp_writeLine]
  · simp
  · intro j hj
    simp [Function.update, hj]

end Variant12

namespace Github

/-! ## C7: the generator -/

theorem sampleLoop_spec {ρ : Type} (dist : List Int → ρ → Nat × ρ) (weights : List Int)
    (cmds : List Str) (hd : ∀ r, (dist weights r).1 < cmds.length) :
    ∀ (n : Nat) (rng : ρ), ∃ out, sampleLoop dist weights cmds n rng = some out ∧
      out.length = n ∧ ∀ l ∈ out, l ∈ cmds := by
  intro n
  induction n with
  | zero => intro rng; exact ⟨[], rfl, rfl, by simp⟩
  | succ n ih =>
    intro rng
    obtain ⟨out, ho, hl, hm⟩ := ih (dist weights rng).2
    have hlt := hd rng
    have hget : cmds[(dist weights rng).1]? = some (cmds[(dist weights rng).1]) :=
      List.getElem?_eq_getElem hlt
    refine ⟨cmds[(dist weights rng).1] :: out, ?_, by simp [hl], ?_⟩
    · simp only [sampleLoop, hget, ho, Option.map_some']
    · intro l hl'
      rcases List.mem_cons.mp hl' with h | h
      · rw [h]; exact List.getElem_mem _
      · exact hm l h

theorem choices_cmds (var : Variant) : (choices var).map (fun p => p.1) = generatorLines := by
  cases var <;> rfl

theorem generatorLines_write_one (junk : Junk) : ∀ l ∈ generatorLines,
    (Command.parse junk l).type = .WRITE → (Command.parse junk l).val = 1 := by
  intro l hl
  simp only [generatorLines, List.mem_cons, List.mem_singleton, List.not_mem_nil, or_false] at hl
  rcases hl with h | h | h | h | h | h | h <;> subst h <;> intro ht
  · change CommandType.READ = CommandType.WRITE at ht; cases ht
  · rfl
  · change CommandType.READ = CommandType.WRITE at ht; cases ht
  · rfl
  · change CommandType.READ = CommandType.WRITE at ht; cases ht
  · rfl
  · change CommandType.STRING = CommandType.WRITE at ht; cases ht

/-- Claim C7 (length and alphabet of the generator). Whenever the sampler returns an index of
the weight table, `generate_sequence` returns, for every variant, count and generator state, a
sequence of exactly `ops_count` lines, each one of the seven descriptors `read 0`,
`write 0 1`, `read 1`, `write 1 1`, `read 2`, `write 2 1`, `string`; every generated line
that parses as a write carries the value 1. -/
theorem generator_length_alphabet {ρ : Type} (dist : List Int → ρ → Nat × ρ)
    (hdist : ∀ (ws : List Int) (r : ρ), ws ≠ [] → (dist ws r).1 < ws.length)
    (var : Variant) (ops_count : Nat) (rng : ρ) (junk : Junk) :
    ∃ out, generate_sequence dist var ops_count rng = some out ∧
      out.length = ops_count ∧
      (∀ l ∈ out, l ∈ generatorLines) ∧
      (∀ l ∈ out, (Command.parse junk l).type = .WRITE → (Command.parse junk l).val = 1) := by
  have hlen : ((choices var).map (fun p => p.1)).length
      = ((choices var).map (fun p => p.2)).length := by simp
  have hne : (choices var).map (fun p => p.2) ≠ [] := by cases var <;> simp [choices]
  obtain ⟨out, ho, hl, hm⟩ := sampleLoop_spec dist ((choices var).map (fun p => p.2))
    ((choices var).map (fun p => p.1)) (fun r => by rw [hlen]; exact hdist _ r hne) ops_count rng
  rw [choices_cmds] at hm
  exact ⟨out, ho, hl, hm, fun l h => generatorLines_write_one junk l (hm l h)⟩

/-- Claim C7 at a concrete sampler (the state modulo the table length), variant `VAR_A`,
three lines and state 15. -/
theorem generator_length_alphabet_witness :
    (∀ (ws : List Int) (r : Nat), ws ≠ [] →
      ((fun (ws : List Int) (r : Nat) => (r % ws.length, r / 7)) ws r).1 < ws.length) ∧
    generate_sequence (fun (ws : List Int) (r : Nat) => (r % ws.length, r / 7)) .VAR_A 3 15
      = some ["write 0 1".toList, "read 1".toList, "read 0".toList] ∧
    ∃ out, generate_sequence (fun (ws : List Int) (r : Nat) => (r % ws.length, r / 7)) .VAR_A 3 15
        = some out ∧ out.length = 3 ∧ (∀ l ∈ out, l ∈ generatorLines) ∧
      (∀ l ∈ out, (Command.parse ⟨0, 0⟩ l).type = .WRITE → (Command.parse ⟨0, 0⟩ l).val = 1) :=
  ⟨fun ws r h => Nat.mod_lt r (List.length_pos.mpr h), by decide,
   generator_length_alphabet (fun (ws : List Int) (r : Nat) => (r % ws.length, r / 7))
     (fun ws r h => Nat.mod_lt r (List.length_pos.mpr h)) .VAR_A 3 15 ⟨0, 0⟩⟩

end Github

namespace Variant12

/-! ## C8: categories of weight zero -/

end Variant12

/-! ## C10: the two executors on generated lines -/

/-- One generator line through both executors, started on equal fields. -/
theorem executors_step (junk : Github.Junk) (l : Str) (hl : l ∈ generatorLines)
    (d : Variant12.DataStructure) (g : Github.DataStructure) (res : Github.ExecResult)
    (hf : d.fields = g.fields) :
    ∃ d1, Variant12.execOp l d = some d1 ∧
      (Github.execCommand (Github.Command.parse junk l) g res).error = none ∧
      d1.fields = (Github.execCommand (Github.Command.parse junk l) g res).ds.fields := by
  obtain ⟨df⟩ := d
  obtain ⟨gf⟩ := g
  simp only at hf
  subst hf
  simp only [generatorLines, List.mem_cons, List.mem_singleton, List.not_mem_nil, or_false] at hl
  rcases hl with h | h | h | h | h | h | h <;> subst h
  · exact ⟨_, rfl, rfl, rfl⟩
  · exact ⟨_, rfl, rfl, rfl⟩
  · exact ⟨_, rfl, rfl, rfl⟩
  · exact ⟨_, rfl, rfl, rfl⟩
  · exact ⟨_, rfl, rfl, rfl⟩
  · exact ⟨_, rfl, rfl, rfl⟩
  · exact ⟨_, rfl, rfl, rfl⟩

/-- Claim C10 (the two executors agree on generated workloads). For every sequence of lines
taken from the seven generator descriptors and every starting triple of field values, the loop
of `executeFile` and `execute_commands_on_ds` both finish without an error (no undefined
subscript in the first, no exception in the second) and leave the same value in each of the
three fields. -/
theorem executors_agree (junk : Github.Junk) (lines : List Str)
    (hl : ∀ l ∈ lines, l ∈ generatorLines) (f : Fin 3 → Int) (res : Github.ExecResult) :
    ∃ d, Variant12.executeFile lines ⟨f⟩ = some d ∧
      (Github.execute_commands_on_ds junk ⟨f⟩ lines res).error = none ∧
      ∀ k : Fin 3, d.fields k = (Github.execute_commands_on_ds junk ⟨f⟩ lines res).ds.fields k := by
  have key : ∀ (lines : List Str), (∀ l ∈ lines, l ∈ generatorLines) →
      ∀ (d : Variant12.DataStructure) (g : Github.DataStructure) (res : Github.ExecResult),
      d.fields = g.fields →
      ∃ d1, Variant12.executeFile lines d = some d1 ∧
        (Github.execCommands (lines.map (Github.Command.parse junk)) g res).error = none ∧
        d1.fields = (Github.execCommands (lines.map (Github.Command.parse junk)) g res).ds.fields := by
    intro lines
    induction lines with
    | nil => intro _ d g res hf; exact ⟨d, rfl, rfl, hf⟩
    | cons l ls ih =>
      intro hmem d g res hf
      obtain ⟨d1, h1, he, hf1⟩ := executors_step junk l (hmem l (by simp)) d g res hf
      obtain ⟨d2, h2, he2, hf2⟩ := ih (fun x hx => hmem x (by simp [hx])) d1 _
        (Github.execCommand (Github.Command.parse junk l) g res).res hf1
      refine ⟨d2, ?_, ?_, ?_⟩
      · simp only [Variant12.executeFile, h1, h2]
      · simp only [List.map_cons, Github.execCommands, he]; exact he2
      · simp only [List.map_cons, Github.execCommands, he]; exact hf2
  obtain ⟨d, h1, h2, h3⟩ := key lines hl ⟨f⟩ ⟨f⟩ res rfl
  exact ⟨d, h1, h2, fun k => congrFun h3 k⟩

/-- Claim C10 at the lines `write 0 1`, `read 0`, `string`, `write 2 1` from the fields
5, 6, 7. -/
theorem executors_agree_witness :
    (∀ l ∈ ["write 0 1".toList, "read 0".toList, "string".toList, "write 2 1".toList],
      l ∈ generatorLines) ∧
    ∃ d, Variant12.executeFile
        ["write 0 1".toList, "read 0".toList, "string".toList, "write 2 1".toList]
        ⟨fun k => (k.val : Int) + 5⟩ = some d ∧
      (Github.execute_commands_on_ds ⟨0, 0⟩ ⟨fun k => (k.val : Int) + 5⟩
        ["write 0 1".toList, "read 0".toList, "string".toList, "write 2 1".toList]
        Github.ExecResult.new).error = none ∧
      ∀ k : Fin 3, d.fields k = (Github.execute_commands_on_ds ⟨0, 0⟩ ⟨fun k => (k.val : Int) + 5⟩
        ["write 0 1".toList, "read 0".toList, "string".toList, "write 2 1".toList]
        Github.ExecResult.new).ds.fields k :=
  ⟨by decide,
   executors_agree ⟨0, 0⟩
     ["write 0 1".toList, "read 0".toList, "string".toList, "write 2 1".toList] (by decide)
     (fun k => (k.val : Int) + 5) Github.ExecResult.new⟩
